import Mathlib

/-!
Verification development for the `solana-storage-bigtable` crate
(`src/storage-bigtable/src/lib.rs`): a shallow embedding of the key codec,
the record codec, the three-table ledger store, and the `LedgerStorage`
operations, together with proofs about them.

Machine integers (`Slot = u64`, `index = u32`) are embedded as `Nat` with
explicit bounds (`u64Max`, `u32Max`); the bitwise complement `!slot` of a
`u64` is `u64Max - slot`.  Rust `String`s are Lean `String`s (all the keys
involved are ASCII, so byte-wise and character-wise lexicographic order
coincide).

The BigTable client itself (`bigtable.rs`) is not part of the sources; its
contract is modelled from the spec (section 6): `get_row` returns the decoded
value or a row-not-found error, `get_rows` returns the rows of the closed key
range in ascending key order up to a row limit, and batched puts either write
every cell or fail with a store error.  Since values are decoded per-table,
the store is embedded with typed tables and cell deserialization is
infallible.
-/

/-- Largest value of a Rust `u64` (`Slot::MAX`). -/
def u64Max : Nat := 18446744073709551615

/-- Largest value of a Rust `u32` (`u32::MAX`). -/
def u32Max : Nat := 4294967295

/-- Bitwise complement `!s` of a `u64` value `s`. -/
def u64Compl (s : Nat) : Nat := u64Max - s

/-- Lower-case hexadecimal digit character, as produced by Rust `{:x}`
formatting. -/
def hexChar (d : Nat) : Char := if d < 10 then Char.ofNat (48 + d) else Char.ofNat (87 + d)

/-- Fixed-width big-endian hexadecimal digits of `n`: `natToHex w n` is the
`w`-character lower-case hex rendering of `n < 16 ^ w`, i.e. Rust
`format!("{:0wx}", n)`. -/
def natToHex : Nat → Nat → List Char
  | 0, _ => []
  | w + 1, n => hexChar (n / 16 ^ w) :: natToHex w (n % 16 ^ w)

/-- `slot_to_key` from `lib.rs`: `format!("{:016x}", slot)`. -/
def slot_to_key (slot : Nat) : String := ⟨natToHex 16 slot⟩

/-- Value of one hexadecimal digit character, accepting `0-9`, `a-f` and
`A-F` exactly as Rust `char::to_digit(16)` does. -/
def hexDigitVal (c : Char) : Option Nat :=
  if 48 ≤ c.toNat ∧ c.toNat ≤ 57 then some (c.toNat - 48)
  else if 97 ≤ c.toNat ∧ c.toNat ≤ 102 then some (c.toNat - 87)
  else if 65 ≤ c.toNat ∧ c.toNat ≤ 70 then some (c.toNat - 55)
  else none

/-- Digit-folding core of Rust `u64::from_str_radix(key, 16)`: fails on a
non-digit character and on overflow past `u64::MAX`. -/
def parseHexAcc : Nat → List Char → Option Nat
  | acc, [] => some acc
  | acc, c :: cs =>
    match hexDigitVal c with
    | none => none
    | some d => if u64Max < 16 * acc + d then none else parseHexAcc (16 * acc + d) cs

/-- `key_to_slot` from `lib.rs`: `Slot::from_str_radix(key, 16)`, returning
`none` where Rust returns an `Err` (which `lib.rs` logs and maps to `None`).
`from_str_radix` strips one leading `+`, rejects the empty digit string,
and rejects invalid digits and overflow. -/
def key_to_slot (key : String) : Option Nat :=
  let cs := key.data
  let ds := if cs.head? = some '+' then cs.tail else cs
  if ds.isEmpty then none else parseHexAcc 0 ds

/-- A decoded Solana transaction, reduced to the fields `lib.rs` reads:
its signature list and the account keys of its message. -/
structure Transaction where
  signatures : List String
  accountKeys : List String
deriving DecidableEq, Repr

/-- Modelled from the spec: the public wire representation of a transaction
("the specific encoding of blocks/transactions into the application's public
wire format" is an external collaborator, spec section 1).  All that `lib.rs`
uses is that `EncodedTransaction::decode` returns `Some` decoded transaction
or `None` for an unsupported encoding. -/
inductive EncodedTransaction where
  | binary (t : Transaction)
  | undecodable
deriving DecidableEq, Repr

/-- `EncodedTransaction::decode`. -/
def EncodedTransaction.decode : EncodedTransaction → Option Transaction
  | .binary t => some t
  | .undecodable => none

/-- Modelled from the spec: `EncodedTransaction::encode` re-encodes a decoded
transaction for the requested `UiTransactionEncoding`; the encodings
themselves are outside this core, so the embedding keeps the decoded form. -/
def EncodedTransaction.encode (t : Transaction) (_encoding : Unit) : EncodedTransaction :=
  .binary t

/-- A transaction error is carried around opaquely; only presence matters. -/
abbrev TransactionError := String

/-- `UiTransactionStatusMeta`, reduced to the fields `lib.rs` moves. -/
structure UiTransactionStatusMeta where
  err : Option TransactionError
  fee : Nat
  preBalances : List Nat
  postBalances : List Nat
deriving DecidableEq, Repr

/-- `TransactionWithStatusMeta` from `solana-transaction-status`. -/
structure TransactionWithStatusMeta where
  transaction : EncodedTransaction
  meta : Option UiTransactionStatusMeta
deriving DecidableEq, Repr

/-- `Rewards` entries are opaque to `lib.rs`. -/
abbrev Rewards := List (String × Int)

/-- `ConfirmedBlock` from `solana-transaction-status`. -/
structure ConfirmedBlock where
  previousBlockhash : String
  blockhash : String
  parentSlot : Nat
  transactions : List TransactionWithStatusMeta
  rewards : Rewards
  blockTime : Option Int
deriving DecidableEq, Repr

/-- `StoredConfirmedBlockTransactionStatusMeta` from `lib.rs`. -/
structure StoredConfirmedBlockTransactionStatusMeta where
  err : Option TransactionError
  fee : Nat
  preBalances : List Nat
  postBalances : List Nat
deriving DecidableEq, Repr

/-- `StoredConfirmedBlockTransaction` from `lib.rs`: the transaction is kept
decoded in storage. -/
structure StoredConfirmedBlockTransaction where
  transaction : Transaction
  meta : Option StoredConfirmedBlockTransactionStatusMeta
deriving DecidableEq, Repr

/-- `StoredConfirmedBlock` from `lib.rs`, the `blocks` table value. -/
structure StoredConfirmedBlock where
  previousBlockhash : String
  blockhash : String
  parentSlot : Nat
  transactions : List StoredConfirmedBlockTransaction
  rewards : Rewards
  blockTime : Option Int
deriving DecidableEq, Repr

/-- `TransactionInfo` from `lib.rs`, the `tx` table value. -/
structure TransactionInfo where
  slot : Nat
  index : Nat
  err : Option TransactionError
  memo : Option String
deriving DecidableEq, Repr

/-- `TransactionByAddrInfo` from `lib.rs`, an entry of a `tx-by-addr` row. -/
structure TransactionByAddrInfo where
  signature : String
  err : Option TransactionError
  index : Nat
  memo : Option String
deriving DecidableEq, Repr

/-- `TransactionStatus` as produced by `From<TransactionInfo>`. -/
structure TransactionStatus where
  slot : Nat
  confirmations : Option Nat
  statusErr : Option TransactionError
  err : Option TransactionError
deriving DecidableEq, Repr

/-- `ConfirmedTransactionStatusWithSignature` from
`solana-transaction-status`. -/
structure ConfirmedTransactionStatusWithSignature where
  signature : String
  slot : Nat
  err : Option TransactionError
  memo : Option String
deriving DecidableEq, Repr

/-- `ConfirmedTransaction` from `solana-transaction-status`. -/
structure ConfirmedTransaction where
  slot : Nat
  transaction : TransactionWithStatusMeta
deriving DecidableEq, Repr

/-- `bigtable::Error`, reduced to the variants reachable from `lib.rs`
reads (modelled from the spec's store contract: row lookups either return the
decoded value or a row-not-found error). -/
inductive BtError where
  | rowNotFound
  | objectCorrupt (msg : String)
deriving DecidableEq, Repr

/-- `Error` from `lib.rs`. -/
inductive Err where
  | bigTableError (e : BtError)
  | ioError
  | unsupportedTransactionEncoding
  | blockNotFound (slot : Nat)
  | signatureNotFound
deriving DecidableEq, Repr

/-- `StoredConfirmedBlockTransaction::into_transaction_with_status_meta`. -/
def StoredConfirmedBlockTransaction.intoTransactionWithStatusMeta
    (t : StoredConfirmedBlockTransaction) (encoding : Unit) : TransactionWithStatusMeta :=
  { transaction := EncodedTransaction.encode t.transaction encoding
    meta := t.meta.map fun m =>
      { err := m.err, fee := m.fee, preBalances := m.preBalances, postBalances := m.postBalances } }

/-- `StoredConfirmedBlock::into_confirmed_block`. -/
def StoredConfirmedBlock.intoConfirmedBlock
    (b : StoredConfirmedBlock) (encoding : Unit) : ConfirmedBlock :=
  { previousBlockhash := b.previousBlockhash
    blockhash := b.blockhash
    parentSlot := b.parentSlot
    transactions := b.transactions.map
      (fun t => t.intoTransactionWithStatusMeta encoding)
    rewards := b.rewards
    blockTime := b.blockTime }

/-- `TryFrom<TransactionWithStatusMeta> for StoredConfirmedBlockTransaction`:
fails (with `Error::UnsupportedTransactionEncoding`) when the transaction
does not decode. -/
def storedTransactionOf (t : TransactionWithStatusMeta) : Option StoredConfirmedBlockTransaction :=
  match t.transaction.decode with
  | none => none
  | some tx => some
      { transaction := tx
        meta := t.meta.map fun m =>
          { err := m.err, fee := m.fee
            preBalances := m.preBalances, postBalances := m.postBalances } }

/-- `TryFrom<ConfirmedBlock> for StoredConfirmedBlock`: converts every
transaction, aborting on the first failure. -/
def storedBlockOf (b : ConfirmedBlock) : Option StoredConfirmedBlock :=
  match listOpt b.transactions with
  | none => none
  | some ts => some
      { previousBlockhash := b.previousBlockhash
        blockhash := b.blockhash
        parentSlot := b.parentSlot
        transactions := ts
        rewards := b.rewards
        blockTime := b.blockTime }
where
  /-- Convert each transaction in order, failing if any fails. -/
  listOpt : List TransactionWithStatusMeta → Option (List StoredConfirmedBlockTransaction)
    | [] => some []
    | t :: ts =>
      match storedTransactionOf t, listOpt ts with
      | some t0, some ts0 => some (t0 :: ts0)
      | _, _ => none

/-- `From<TransactionInfo> for TransactionStatus`. -/
def TransactionInfo.intoStatus (ti : TransactionInfo) : TransactionStatus :=
  { slot := ti.slot, confirmations := none, statusErr := ti.err, err := ti.err }

/-- Byte-wise lexicographic comparison of character lists, the order Rust
uses on `String` keys (the keys at hand are ASCII, so code-point-wise and
byte-wise order agree).  `charsLt` is proved equivalent to the
lexicographic `<` on `String` in `keyLt_iff_lt`. -/
def charsLt : List Char → List Char → Bool
  | [], [] => false
  | [], _ :: _ => true
  | _ :: _, [] => false
  | a :: as, b :: bs => a.toNat < b.toNat || (a.toNat = b.toNat && charsLt as bs)

/-- Key comparison used by the store model; see `charsLt`. -/
def keyLt (a b : String) : Bool := charsLt a.data b.data

/-- A table of the store: an association list from row key to decoded value,
kept in ascending key order by the write path (the store serves range scans
in key order; see `TableSorted`). -/
abbrev Table (V : Type) := List (String × V)

/-- Modelled from the spec: single-row fetch (`get_row` / `get_bincode_cell`)
returns the decoded value of the row, if present. -/
def lookupRow {V : Type} : Table V → String → Option V
  | [], _ => none
  | (k, v) :: rest, key => if k = key then some v else lookupRow rest key

/-- Insert or overwrite one row, keeping the table in ascending key order
(rows are indexed by key in the store; a re-put of a key overwrites,
last-write-wins). -/
def insertRow {V : Type} (key : String) (v : V) : Table V → Table V
  | [] => [(key, v)]
  | (k, w) :: rest =>
    if keyLt key k then (key, v) :: (k, w) :: rest
    else if key = k then (key, v) :: rest
    else (k, w) :: insertRow key v rest

/-- Modelled from the spec: batched put (`put_bincode_cells_with_retry`)
writes every cell of the batch. -/
def putRows {V : Type} (t : Table V) (cells : List (String × V)) : Table V :=
  cells.foldl (fun acc kv => insertRow kv.1 kv.2 acc) t

/-- Modelled from the spec: key-range row listing (`get_row_keys`): the keys
of the table from `start` (inclusive) upward, at most `limit` of them, in
table (= key) order. -/
def getRowKeys {V : Type} (t : Table V) (start : Option String) (limit : Nat) : List String :=
  ((t.filter fun kv => match start with
      | none => true
      | some s => !keyLt kv.1 s).map (fun kv => kv.1)).take limit

/-- Modelled from the spec: multi-row fetch (`get_row_data`) over the closed
key range `[start, stop]`, at most `limit` rows, in table (= key) order. -/
def getRowData {V : Type} (t : Table V) (start stop : String) (limit : Nat) :
    List (String × V) :=
  (t.filter fun kv => !keyLt kv.1 start && !keyLt stop kv.1).take limit

/-- The three tables of the ledger store (spec section 3). -/
structure Store where
  blocks : Table StoredConfirmedBlock
  tx : Table TransactionInfo
  txByAddr : Table (List TransactionByAddrInfo)
deriving DecidableEq, Repr

/-- `LedgerStorage::get_first_available_block`. -/
def getFirstAvailableBlock (st : Store) : Except Err (Option Nat) :=
  match getRowKeys st.blocks none 1 with
  | [] => .ok none
  | k :: _ => .ok (key_to_slot k)

/-- `LedgerStorage::get_confirmed_blocks`: list up to `limit` keys of
`blocks` from `slot_to_key start_slot` on, dropping unparseable keys. -/
def getConfirmedBlocks (st : Store) (startSlot : Nat) (limit : Nat) : Except Err (List Nat) :=
  .ok ((getRowKeys st.blocks (some (slot_to_key startSlot)) limit).filterMap key_to_slot)

/-- `LedgerStorage::get_confirmed_block`: fetch-and-decode the `blocks` row;
an absent row surfaces as the store's row-not-found error via `?`. -/
def getConfirmedBlock (st : Store) (slot : Nat) (encoding : Unit) : Except Err ConfirmedBlock :=
  match lookupRow st.blocks (slot_to_key slot) with
  | none => .error (.bigTableError .rowNotFound)
  | some b => .ok (b.intoConfirmedBlock encoding)

/-- `LedgerStorage::get_signature_status`: fetch-and-decode the `tx` row; an
absent row surfaces as the store's row-not-found error via `?`. -/
def getSignatureStatus (st : Store) (signature : String) : Except Err TransactionStatus :=
  match lookupRow st.tx signature with
  | none => .error (.bigTableError .rowNotFound)
  | some ti => .ok ti.intoStatus

/-- First signature of a stored transaction: the source indexes
`transaction.signatures[0]`, which requires a non-empty signature list (an
empty one would abort the process); theorems about this operation assume the
list is non-empty. -/
def firstSignature (t : Transaction) : String := t.signatures.headD ""

/-- `LedgerStorage::get_confirmed_transaction`: locate the block via `tx`,
load it, and index into its transaction list; an out-of-range index or a
mismatched first signature yields `Ok(None)`. -/
def getConfirmedTransaction (st : Store) (signature : String) (encoding : Unit) :
    Except Err (Option ConfirmedTransaction) :=
  match lookupRow st.tx signature with
  | none => .error (.bigTableError .rowNotFound)
  | some ti =>
    match lookupRow st.blocks (slot_to_key ti.slot) with
    | none => .error (.bigTableError .rowNotFound)
    | some block =>
      match block.transactions.get? ti.index with
      | none => .ok none
      | some bt =>
        if firstSignature bt.transaction ≠ signature then .ok none
        else .ok (some { slot := ti.slot
                         transaction := bt.intoTransactionWithStatusMeta encoding })

/-- Resolve one signature cursor of `get_confirmed_signatures_for_address`
to a `(slot, index)` pair via the `tx` table, with the given default when the
cursor is absent; a missing `tx` row propagates as an error via `?`. -/
def resolveCursor (st : Store) (cursor : Option String) (dflt : Nat × Nat) :
    Except Err (Nat × Nat) :=
  match cursor with
  | none => .ok dflt
  | some sig =>
    match lookupRow st.tx sig with
    | none => .error (.bigTableError .rowNotFound)
    | some ti => .ok (ti.slot, ti.index)

/-- Inner loop of `get_confirmed_signatures_for_address` over the entries of
one `tx-by-addr` row: skip entries at the `before` cursor boundary or at the
`until` cursor boundary, emit the rest, and report (second component `true`)
when `infos.len() >= limit` right after an emission. -/
def emitEntries (slot firstSlot beforeIndex lastSlot untilIndex limit : Nat)
    (acc : List ConfirmedTransactionStatusWithSignature) :
    List TransactionByAddrInfo → List ConfirmedTransactionStatusWithSignature × Bool
  | [] => (acc, false)
  | e :: rest =>
    if slot = firstSlot ∧ beforeIndex ≤ e.index then
      emitEntries slot firstSlot beforeIndex lastSlot untilIndex limit acc rest
    else if slot = lastSlot ∧ e.index ≤ untilIndex then
      emitEntries slot firstSlot beforeIndex lastSlot untilIndex limit acc rest
    else
      let acc2 := acc ++ [{ signature := e.signature, slot := slot, err := e.err, memo := e.memo }]
      if limit ≤ acc2.length then (acc2, true)
      else emitEntries slot firstSlot beforeIndex lastSlot untilIndex limit acc2 rest

/-- Outer loop of `get_confirmed_signatures_for_address` over the scanned
`tx-by-addr` rows: decode the complemented slot from each row key (an
unparseable key aborts the call with an `ObjectCorrupt` error via `?`),
process the row's entries, and stop once the limit has been hit. -/
def addrLoop (preLen firstSlot beforeIndex lastSlot untilIndex limit : Nat)
    (acc : List ConfirmedTransactionStatusWithSignature) :
    List (String × List TransactionByAddrInfo) →
    Except Err (List ConfirmedTransactionStatusWithSignature)
  | [] => .ok acc
  | (rowKey, data) :: rest =>
    match key_to_slot (rowKey.drop preLen) with
    | none => .error (.bigTableError (.objectCorrupt
        ("Failed to convert key to slot: tx-by-addr/" ++ rowKey)))
    | some v =>
      match emitEntries (u64Compl v) firstSlot beforeIndex lastSlot untilIndex limit acc data with
      | (acc2, true) => .ok acc2
      | (acc2, false) =>
        addrLoop preLen firstSlot beforeIndex lastSlot untilIndex limit acc2 rest

/-- `LedgerStorage::get_confirmed_signatures_for_address`: resolve the two
cursors, pre-fetch the starting slot's row (an absent row propagates as a
row-not-found error via `?`), range-scan `tx-by-addr` between the
complemented cursor slots, and run the filtering loop. -/
def getConfirmedSignaturesForAddress (st : Store) (address : String)
    (beforeSignature untilSignature : Option String) (limit : Nat) :
    Except Err (List ConfirmedTransactionStatusWithSignature) :=
  let addrPre := address ++ "/"
  match resolveCursor st beforeSignature (u64Max, 0) with
  | .error e => .error e
  | .ok (firstSlot, beforeIndex) =>
    match resolveCursor st untilSignature (0, u32Max) with
    | .error e => .error e
    | .ok (lastSlot, untilIndex) =>
      match lookupRow st.txByAddr (addrPre ++ slot_to_key (u64Compl firstSlot)) with
      | none => .error (.bigTableError .rowNotFound)
      | some starting =>
        let rows := getRowData st.txByAddr
          (addrPre ++ slot_to_key (u64Compl firstSlot))
          (addrPre ++ slot_to_key (u64Compl lastSlot))
          (limit + starting.length)
        addrLoop addrPre.length firstSlot beforeIndex lastSlot untilIndex limit [] rows

/-- Per-transaction data extracted by the first loop of
`upload_confirmed_block`: the in-block index, the decoded transaction and the
error taken from its status meta.  The source decodes with
`.expect("transaction decode failed")`, aborting the process on failure, so
the extraction of the whole block fails (returns `none`) exactly when some
transaction does not decode. -/
def uploadEntries (b : ConfirmedBlock) : Option (List (Nat × Transaction × Option TransactionError)) :=
  go 0 b.transactions
where
  /-- Walk the transactions in order, numbering them from `i`. -/
  go (i : Nat) : List TransactionWithStatusMeta →
      Option (List (Nat × Transaction × Option TransactionError))
    | [] => some []
    | t :: ts =>
      match t.transaction.decode with
      | none => none
      | some tx =>
        match go (i + 1) ts with
        | none => none
        | some rest => some ((i, tx, t.meta.bind fun m => m.err) :: rest)

/-- The `tx` batch of `upload_confirmed_block`: one
`(signature, TransactionInfo)` cell per transaction. -/
def txCellsOf (slot : Nat) (entries : List (Nat × Transaction × Option TransactionError)) :
    List (String × TransactionInfo) :=
  entries.map fun e =>
    (firstSignature e.2.1, { slot := slot, index := e.1, err := e.2.2, memo := none })

/-- Append one `tx-by-addr` entry to the list of its address, preserving the
order in which addresses first appear and, per address, the order in which
entries are pushed (`HashMap::entry(..).or_default().push(..)`). -/
def pushByAddr (addr : String) (info : TransactionByAddrInfo) :
    List (String × List TransactionByAddrInfo) → List (String × List TransactionByAddrInfo)
  | [] => [(addr, [info])]
  | (a, l) :: rest =>
    if a = addr then (a, l ++ [info]) :: rest else (a, l) :: pushByAddr addr info rest

/-- The by-address grouping of `upload_confirmed_block`: for every
transaction, in block order, push one entry for each non-sysvar account key.
`is_sysvar_id` lives in `solana-sdk` (outside this crate) and is passed in as
a predicate. -/
def byAddrOf (isSysvarId : String → Bool)
    (entries : List (Nat × Transaction × Option TransactionError)) :
    List (String × List TransactionByAddrInfo) :=
  entries.foldl
    (fun m e =>
      (e.2.1.accountKeys.filter fun a => !isSysvarId a).foldl
        (fun m2 addr =>
          pushByAddr addr
            { signature := firstSignature e.2.1, err := e.2.2, index := e.1, memo := none } m2)
        m)
    []

/-- The `tx-by-addr` batch of `upload_confirmed_block`: one cell per address,
keyed `"{address}/{slot_to_key(!slot)}"`. -/
def txByAddrCellsOf (isSysvarId : String → Bool) (slot : Nat)
    (entries : List (Nat × Transaction × Option TransactionError)) :
    List (String × List TransactionByAddrInfo) :=
  (byAddrOf isSysvarId entries).map fun av =>
    (av.1 ++ "/" ++ slot_to_key (u64Compl slot), av.2)

/-- Outcome of `upload_confirmed_block`: either the Rust function's own
result (`Ok`/`Err`) or the process abort caused by `.expect` on an
undecodable transaction. -/
inductive UploadOutcome where
  | finished (r : Option Err)
  | aborted
deriving DecidableEq, Repr

/-- Per-call behavior of the external store's three batched puts: `none`
means the put succeeds, `some e` that it fails with store error `e`
(batched puts retry internally and report one error for the whole batch). -/
structure PutOutcomes where
  txPut : Option BtError
  txByAddrPut : Option BtError
  blocksPut : Option BtError
deriving DecidableEq, Repr

/-- `LedgerStorage::upload_confirmed_block`: build the `tx` cells and the
`tx-by-addr` cells, write the two index batches (skipping empty batches),
and only then convert and write the `blocks` row.  Returns the store as left
by the writes that happened, plus the outcome. -/
def uploadConfirmedBlock (st : Store) (slot : Nat) (b : ConfirmedBlock)
    (isSysvarId : String → Bool) (po : PutOutcomes) : Store × UploadOutcome :=
  match uploadEntries b with
  | none => (st, .aborted)
  | some entries =>
    let txCells := txCellsOf slot entries
    let byAddrCells := txByAddrCellsOf isSysvarId slot entries
    match (if txCells.isEmpty then none else po.txPut) with
    | some e => (st, .finished (some (.bigTableError e)))
    | none =>
      let st1 : Store := { st with tx := putRows st.tx txCells }
      match (if byAddrCells.isEmpty then none else po.txByAddrPut) with
      | some e => (st1, .finished (some (.bigTableError e)))
      | none =>
        let st2 : Store := { st1 with txByAddr := putRows st1.txByAddr byAddrCells }
        match storedBlockOf b with
        | none => (st2, .finished (some .unsupportedTransactionEncoding))
        | some sb =>
          match po.blocksPut with
          | some e => (st2, .finished (some (.bigTableError e)))
          | none =>
            ({ st2 with blocks := insertRow (slot_to_key slot) sb st2.blocks }, .finished none)

/-- The emission condition of the filtering loop of
`get_confirmed_signatures_for_address`: an entry of a row for `slot` is kept
unless it is at or past the `before` boundary of `firstSlot`, or at or
before the `until` boundary of `lastSlot`. -/
def keepEntry (firstSlot beforeIndex lastSlot untilIndex slot : Nat)
    (e : TransactionByAddrInfo) : Bool :=
  !(decide (slot = firstSlot) && decide (beforeIndex ≤ e.index)) &&
  !(decide (slot = lastSlot) && decide (e.index ≤ untilIndex))

/-- The record emitted for one `tx-by-addr` entry of the row for `slot`. -/
def entryToInfo (slot : Nat) (e : TransactionByAddrInfo) :
    ConfirmedTransactionStatusWithSignature :=
  { signature := e.signature, slot := slot, err := e.err, memo := e.memo }

/-- The slot denoted by a scanned `tx-by-addr` row key: complement of the
hex value after the `"{address}/"` prefix is removed (defaulting to 0; the
loop itself errors instead of using the default when the key does not
parse). -/
def rowSlot (preLen : Nat) (rowKey : String) : Nat :=
  u64Compl ((key_to_slot (rowKey.drop preLen)).getD 0)

/-- Normal form of the loop of `get_confirmed_signatures_for_address`
before truncation: the scanned rows, each filtered by `keepEntry` and
emitted in row order. -/
def flatEmit (preLen firstSlot beforeIndex lastSlot untilIndex : Nat)
    (rows : List (String × List TransactionByAddrInfo)) :
    List ConfirmedTransactionStatusWithSignature :=
  rows.flatMap fun r =>
    (r.2.filter (keepEntry firstSlot beforeIndex lastSlot untilIndex (rowSlot preLen r.1))).map
      (entryToInfo (rowSlot preLen r.1))

/-- A block holding one decodable transaction signed by `sig` whose message
references only the address `"X"`. -/
def exampleBlock (sig : String) : ConfirmedBlock :=
  { previousBlockhash := "p", blockhash := "h", parentSlot := 0
    transactions := [{ transaction := .binary { signatures := [sig], accountKeys := ["X"] }
                       meta := none }]
    rewards := [], blockTime := none }

/-- Sysvar predicate that treats nothing as a sysvar. -/
def noSysvarId : String → Bool := fun _ => false

/-- All three batched puts succeed. -/
def putsOk : PutOutcomes := { txPut := none, txByAddrPut := none, blocksPut := none }

/-- The `tx` batch put fails with a store error. -/
def putsTxFail : PutOutcomes :=
  { txPut := some .rowNotFound, txByAddrPut := none, blocksPut := none }

/-- A store with all three tables empty. -/
def emptyStore : Store := { blocks := [], tx := [], txByAddr := [] }

/-- The store after uploading `exampleBlock "S5"` at slot 5. -/
def store5 : Store := (uploadConfirmedBlock emptyStore 5 (exampleBlock "S5") noSysvarId putsOk).1

/-- The store after additionally uploading `exampleBlock "S10"` at slot 10.
-/
def store510 : Store := (uploadConfirmedBlock store5 10 (exampleBlock "S10") noSysvarId putsOk).1

/-- The `tx-by-addr` row key of address `"X"` for `slot`. -/
def rowKeyX (slot : Nat) : String := "X/" ++ slot_to_key (u64Compl slot)

/-- Entry at in-block index 0, signature `"SA"`. -/
def entryA : TransactionByAddrInfo := { signature := "SA", err := none, index := 0, memo := none }

/-- Entry at in-block index 1, signature `"SB"`. -/
def entryB : TransactionByAddrInfo := { signature := "SB", err := none, index := 1, memo := none }

/-- Entry at in-block index 0, signature `"SC"`. -/
def entryC : TransactionByAddrInfo := { signature := "SC", err := none, index := 0, memo := none }

/-- A store with both cursors resolvable: `"SB"` at (slot 10, index 1),
`"SU"` at (slot 2, index 0), and one `tx-by-addr` row for `"X"` at slot 10
listing indices 0 and 1. -/
def cursorStore : Store :=
  { blocks := []
    tx := [("SB", { slot := 10, index := 1, err := none, memo := none }),
           ("SU", { slot := 2, index := 0, err := none, memo := none })]
    txByAddr := [(rowKeyX 10, [entryA, entryB])] }

/-- A store whose address history for `"X"` spans slots 11 and 10, the
slot-10 row holding two entries with ascending in-block indices. -/
def historyStore : Store :=
  { blocks := []
    tx := [("SC", { slot := 11, index := 0, err := none, memo := none })]
    txByAddr := [(rowKeyX 11, [entryC]), (rowKeyX 10, [entryA, entryB])] }

/-- A store whose `tx-by-addr` table holds a row key that does not parse
back to a slot, lying inside the scanned range. -/
def corruptKeyStore : Store :=
  { blocks := []
    tx := [("SC", { slot := 11, index := 0, err := none, memo := none })]
    txByAddr := [(rowKeyX 11, [entryC]), ("X/fffffffffffffff5x", [entryA])] }

/-- A block record with no transactions. -/
def emptyStoredBlock : StoredConfirmedBlock :=
  { previousBlockhash := "p", blockhash := "h", parentSlot := 0
    transactions := [], rewards := [], blockTime := none }

/-- A `blocks` table holding rows for slots 5 and 10 and one corrupt key. -/
def corruptBlocksStore : Store :=
  { blocks := [(slot_to_key 5, emptyStoredBlock), (slot_to_key 10, emptyStoredBlock),
               ("not-a-key", emptyStoredBlock)]
    tx := [], txByAddr := [] }

/-- A stored block holding exactly one transaction, signed by `"T0"`. -/
def oneTxStoredBlock : StoredConfirmedBlock :=
  { previousBlockhash := "p", blockhash := "h", parentSlot := 0
    transactions := [{ transaction := { signatures := ["T0"], accountKeys := ["X"] }
                       meta := none }]
    rewards := [], blockTime := none }

/-- A store whose `tx` entry for `"S9"` points at index 5 of a one-element
block: the index is out of range. -/
def outOfRangeStore : Store :=
  { blocks := [(slot_to_key 3, oneTxStoredBlock)]
    tx := [("S9", { slot := 3, index := 5, err := none, memo := none })]
    txByAddr := [] }

deriving instance DecidableEq for Except

/-- `<` on `Char` is `<` on the underlying code points. -/
theorem charLt_iff {a b : Char} : a < b ↔ a.toNat < b.toNat := Iff.rfl

/-- Characters with equal code points are equal. -/
theorem charEq_of_toNat {a b : Char} (h : a.toNat = b.toNat) : a = b :=
  Char.eq_of_val_eq (UInt32.ext h)

/-- Head/tail characterization of the lexicographic order on `cons` lists. -/
theorem lexCons_iff {a b : Char} {as bs : List Char} :
    List.Lex (· < ·) (a :: as) (b :: bs) ↔ a < b ∨ (a = b ∧ List.Lex (· < ·) as bs) := by
  constructor
  · intro h
    cases h with
    | cons h => exact Or.inr ⟨rfl, h⟩
    | rel h => exact Or.inl h
  · intro h
    rcases h with h | ⟨rfl, h⟩
    · exact List.Lex.rel h
    · exact List.Lex.cons h

/-- `charsLt` decides the lexicographic strict order on character lists. -/
theorem charsLt_iff : ∀ as bs : List Char, charsLt as bs = true ↔ List.Lex (· < ·) as bs
  | [], [] => by simp [charsLt]
  | [], _ :: _ => by simp [charsLt]; exact List.Lex.nil
  | _ :: _, [] => by simp [charsLt]
  | a :: as, b :: bs => by
    simp only [charsLt, Bool.or_eq_true, Bool.and_eq_true, decide_eq_true_eq, lexCons_iff,
      charsLt_iff as bs]
    constructor
    · rintro (h | ⟨he, h⟩)
      · exact Or.inl (charLt_iff.mpr h)
      · exact Or.inr ⟨charEq_of_toNat he, h⟩
    · rintro (h | ⟨rfl, h⟩)
      · exact Or.inl (charLt_iff.mp h)
      · exact Or.inr ⟨rfl, h⟩

/-- `keyLt` decides the lexicographic strict order on strings. -/
theorem keyLt_iff_lt (a b : String) : keyLt a b = true ↔ a < b :=
  (charsLt_iff a.data b.data).trans String.lt_iff_toList_lt.symm

/-- Hex digit characters are strictly increasing in the digit value. -/
theorem hexChar_mono : ∀ e < 16, ∀ d < e, hexChar d < hexChar e := by decide

/-- No hex digit character is the sign character `+`. -/
theorem hexChar_ne_plus : ∀ d < 16, hexChar d ≠ '+' := by decide

/-- Parsing inverts formatting on single hex digits. -/
theorem hexDigitVal_hexChar : ∀ d < 16, hexDigitVal (hexChar d) = some d := by decide

/-- `natToHex w` always renders exactly `w` characters. -/
theorem natToHex_length : ∀ w n, (natToHex w n).length = w
  | 0, _ => rfl
  | w + 1, n => by simp [natToHex, natToHex_length w]

/-- Fixed-width hex rendering is strictly monotone w.r.t. lexicographic
order. -/
theorem natToHex_lex : ∀ w a b, a < b → b < 16 ^ w →
    List.Lex (· < ·) (natToHex w a) (natToHex w b)
  | 0, _, _, hab, hb => by simp only [pow_zero] at hb; omega
  | w + 1, a, b, hab, hb => by
    have hb16 : b / 16 ^ w < 16 := by
      refine Nat.div_lt_of_lt_mul ?_
      rw [Nat.pow_succ] at hb; omega
    have hdivle : a / 16 ^ w ≤ b / 16 ^ w := Nat.div_le_div_right (Nat.le_of_lt hab)
    rcases Nat.lt_or_ge (a / 16 ^ w) (b / 16 ^ w) with hlt | hge
    · exact List.Lex.rel (hexChar_mono _ hb16 _ hlt)
    · have heq : a / 16 ^ w = b / 16 ^ w := Nat.le_antisymm hdivle hge
      have hmodlt : a % 16 ^ w < b % 16 ^ w := by
        have ha2 := Nat.div_add_mod a (16 ^ w)
        have hb2 := Nat.div_add_mod b (16 ^ w)
        rw [heq] at ha2
        omega
      have hbmod : b % 16 ^ w < 16 ^ w :=
        Nat.mod_lt b (Nat.pos_pow_of_pos w (by norm_num))
      rw [show natToHex (w + 1) a = hexChar (a / 16 ^ w) :: natToHex w (a % 16 ^ w) from rfl,
        show natToHex (w + 1) b = hexChar (b / 16 ^ w) :: natToHex w (b % 16 ^ w) from rfl, heq]
      exact List.Lex.cons (natToHex_lex w _ _ hmodlt hbmod)

/-- Parsing inverts fixed-width hex formatting, for any accumulator. -/
theorem parseHexAcc_natToHex : ∀ w acc n, n < 16 ^ w → 16 ^ w * acc + n ≤ u64Max →
    parseHexAcc acc (natToHex w n) = some (16 ^ w * acc + n)
  | 0, acc, n, hn, hle => by
    have : n = 0 := by omega
    subst this
    simp [natToHex, parseHexAcc]
  | w + 1, acc, n, hn, hle => by
    have hpos : 0 < 16 ^ w := Nat.pos_pow_of_pos w (by norm_num)
    have hq : n / 16 ^ w < 16 := by
      refine Nat.div_lt_of_lt_mul ?_
      rw [Nat.pow_succ] at hn; omega
    have hmod : n % 16 ^ w < 16 ^ w := Nat.mod_lt n hpos
    have hnsplit := Nat.div_add_mod n (16 ^ w)
    have hrearrange : 16 ^ w * (16 * acc + n / 16 ^ w) + n % 16 ^ w = 16 ^ (w + 1) * acc + n := by
      conv_rhs => rw [← hnsplit]
      rw [Nat.pow_succ]
      ring
    have hle2 : 16 ^ w * (16 * acc + n / 16 ^ w) + n % 16 ^ w ≤ u64Max := by
      rw [hrearrange]; exact hle
    have hsmall : 16 * acc + n / 16 ^ w ≤ u64Max := by
      have hstep := Nat.le_mul_of_pos_left (16 * acc + n / 16 ^ w) hpos
      omega
    rw [show natToHex (w + 1) n = hexChar (n / 16 ^ w) :: natToHex w (n % 16 ^ w) from rfl]
    rw [show parseHexAcc acc (hexChar (n / 16 ^ w) :: natToHex w (n % 16 ^ w)) =
        (match hexDigitVal (hexChar (n / 16 ^ w)) with
         | none => none
         | some d => if u64Max < 16 * acc + d then none
                     else parseHexAcc (16 * acc + d) (natToHex w (n % 16 ^ w))) from rfl]
    rw [hexDigitVal_hexChar _ hq]
    simp only [if_neg (by omega : ¬ u64Max < 16 * acc + n / 16 ^ w)]
    rw [parseHexAcc_natToHex w _ _ hmod hle2, hrearrange]

/-- `u64` values have exactly 16 hex digits. -/
theorem pow16_eq : 16 ^ 16 = u64Max + 1 := by norm_num [u64Max]

/-- A key whose first character is not the sign `+` is parsed as its bare
digit string. -/
theorem key_to_slot_cons (c : Char) (cs : List Char) (hc : ¬ c = '+') :
    key_to_slot ⟨c :: cs⟩ = parseHexAcc 0 (c :: cs) := by
  simp [key_to_slot, hc]

/-- Round trip of the key codec on any canonical 16-digit key. -/
theorem key_to_slot_slot_to_key (s : Nat) (hs : s ≤ u64Max) :
    key_to_slot (slot_to_key s) = some s := by
  have hs16 : s < 16 ^ 16 := by rw [pow16_eq]; omega
  have hq : s / 16 ^ 15 < 16 := by
    refine Nat.div_lt_of_lt_mul ?_
    have hsplit : (16 : Nat) ^ 16 = 16 ^ 15 * 16 := Nat.pow_succ 16 15
    omega
  have hcons : natToHex 16 s = hexChar (s / 16 ^ 15) :: natToHex 15 (s % 16 ^ 15) := rfl
  show key_to_slot ⟨natToHex 16 s⟩ = some s
  rw [hcons, key_to_slot_cons _ _ (hexChar_ne_plus _ hq), ← hcons]
  have hparse := parseHexAcc_natToHex 16 0 s hs16 (by omega)
  simpa using hparse

/-- Order-preservation of the slot key encoding, in lexicographic string
order. -/
theorem slot_to_key_lt (a b : Nat) (hab : a < b) (hb : b ≤ u64Max) :
    slot_to_key a < slot_to_key b := by
  have : List.Lex (· < ·) (natToHex 16 a) (natToHex 16 b) :=
    natToHex_lex 16 a b hab (by rw [pow16_eq]; omega)
  exact String.lt_iff_toList_lt.mpr this

/-- C5: for every slot `s` (a `u64` value), `key_to_slot (slot_to_key s) =
some s`, and for every pair of slots `a < b`, `slot_to_key a` is strictly
less than `slot_to_key b` in lexicographic string order. -/
theorem slot_key_round_trip_and_order :
    (∀ s : Nat, s ≤ u64Max → key_to_slot (slot_to_key s) = some s) ∧
    (∀ a b : Nat, a < b → b ≤ u64Max → slot_to_key a < slot_to_key b) :=
  ⟨key_to_slot_slot_to_key, slot_to_key_lt⟩

/-- Witness for C5 at slots 5 and 10. -/
theorem slot_key_round_trip_and_order_witness :
    key_to_slot (slot_to_key 5) = some 5 ∧ slot_to_key 5 < slot_to_key 10 :=
  ⟨slot_key_round_trip_and_order.1 5 (by decide),
   slot_key_round_trip_and_order.2 5 10 (by decide) (by decide)⟩

/-- C6: complementing the slot before encoding reverses the lexicographic
order of the keys: for slots `a < b`, `slot_to_key (!b) < slot_to_key (!a)`.
-/
theorem complemented_slot_key_reverses_order (a b : Nat) (hab : a < b) (hb : b ≤ u64Max) :
    slot_to_key (u64Compl b) < slot_to_key (u64Compl a) := by
  have h1 : u64Compl b < u64Compl a := by unfold u64Compl; omega
  have h2 : u64Compl a ≤ u64Max := by unfold u64Compl; omega
  exact slot_to_key_lt _ _ h1 h2

/-- Witness for C6 at slots 3 and 7. -/
theorem complemented_slot_key_reverses_order_witness :
    slot_to_key (u64Compl 7) < slot_to_key (u64Compl 3) :=
  complemented_slot_key_reverses_order 3 7 (by decide) (by decide)

/-- C10: `key_to_slot` is not a right inverse of `slot_to_key`: the
non-canonical key `"1"` parses to slot 1 although `slot_to_key 1` is the
zero-padded 16-digit key, so `slot_to_key (key_to_slot "1") ≠ "1"`, even
though `key_to_slot (slot_to_key s) = some s` holds for every slot. -/
theorem key_to_slot_accepts_noncanonical_keys :
    key_to_slot "1" = some 1 ∧ slot_to_key 1 ≠ "1" ∧
    (∀ s : Nat, s ≤ u64Max → key_to_slot (slot_to_key s) = some s) :=
  ⟨rfl, by decide, key_to_slot_slot_to_key⟩

/-- Witness for C10: the general round-trip conjunct applied at slot 7. -/
theorem key_to_slot_accepts_noncanonical_keys_witness :
    key_to_slot "1" = some 1 ∧ key_to_slot (slot_to_key 7) = some 7 :=
  ⟨key_to_slot_accepts_noncanonical_keys.1,
   key_to_slot_accepts_noncanonical_keys.2.2 7 (by decide)⟩

/-- C1: in `upload_confirmed_block`, the `blocks` row is written only after
the `tx` batch and the `tx-by-addr` batch have both succeeded (an empty
batch is skipped and counts as success), and if either batch put fails with
a store error, the call returns exactly that error and the `blocks` table is
left untouched. -/
theorem upload_blocks_row_only_after_index_puts (st : Store) (slot : Nat)
    (b : ConfirmedBlock) (sysv : String → Bool) (po : PutOutcomes)
    (entries : List (Nat × Transaction × Option TransactionError))
    (hdec : uploadEntries b = some entries) :
    ((uploadConfirmedBlock st slot b sysv po).1.blocks ≠ st.blocks →
        (txCellsOf slot entries = [] ∨ po.txPut = none) ∧
        (txByAddrCellsOf sysv slot entries = [] ∨ po.txByAddrPut = none)) ∧
    (∀ e : BtError,
        ((¬ txCellsOf slot entries = [] ∧ po.txPut = some e) ∨
         ((txCellsOf slot entries = [] ∨ po.txPut = none) ∧
          ¬ txByAddrCellsOf sysv slot entries = [] ∧ po.txByAddrPut = some e)) →
        (uploadConfirmedBlock st slot b sysv po).2 =
            .finished (some (.bigTableError e)) ∧
        (uploadConfirmedBlock st slot b sysv po).1.blocks = st.blocks) := by
  rcases po with ⟨tp, bp, kp⟩
  by_cases htx : txCellsOf slot entries = [] <;>
    by_cases hba : txByAddrCellsOf sysv slot entries = [] <;>
      rcases tp with _ | e1 <;> rcases bp with _ | e2 <;> rcases kp with _ | e3 <;>
        rcases hsb : storedBlockOf b with _ | sb <;>
          simp_all [uploadConfirmedBlock, List.isEmpty_iff]

/-- The inner loop `emitEntries` appends the `keepEntry`-filtered entries of
the row to the accumulator, truncating at (and reporting) the limit; the
effective limit is `max limit 1` because the loop checks `len >= limit` only
after pushing an entry. -/
theorem emitEntries_eq (fs bi ls ui limit slot : Nat) :
    ∀ (es : List TransactionByAddrInfo) (acc : List ConfirmedTransactionStatusWithSignature),
      acc.length < max limit 1 →
      emitEntries slot fs bi ls ui limit acc es =
        (if max limit 1 ≤
            (acc ++ (es.filter (keepEntry fs bi ls ui slot)).map (entryToInfo slot)).length
         then ((acc ++ (es.filter (keepEntry fs bi ls ui slot)).map (entryToInfo slot)).take
                (max limit 1), true)
         else (acc ++ (es.filter (keepEntry fs bi ls ui slot)).map (entryToInfo slot), false))
  | [], acc, hacc => by
    simp only [emitEntries, List.filter_nil, List.map_nil, List.append_nil]
    rw [if_neg (by omega)]
  | e :: rest, acc, hacc => by
    by_cases h1 : slot = fs ∧ bi ≤ e.index
    · have hk : keepEntry fs bi ls ui slot e = false := by
        simp [keepEntry, h1.1, h1.2]
      rw [show emitEntries slot fs bi ls ui limit acc (e :: rest) =
          emitEntries slot fs bi ls ui limit acc rest from by
        simp only [emitEntries]; rw [if_pos h1]]
      rw [emitEntries_eq fs bi ls ui limit slot rest acc hacc]
      simp [List.filter_cons, hk]
    · by_cases h2 : slot = ls ∧ e.index ≤ ui
      · have hk : keepEntry fs bi ls ui slot e = false := by
          simp [keepEntry, h2.1, h2.2]
        rw [show emitEntries slot fs bi ls ui limit acc (e :: rest) =
            emitEntries slot fs bi ls ui limit acc rest from by
          simp only [emitEntries]; rw [if_neg h1, if_pos h2]]
        rw [emitEntries_eq fs bi ls ui limit slot rest acc hacc]
        simp [List.filter_cons, hk]
      · have hk : keepEntry fs bi ls ui slot e = true := by
          simp only [keepEntry, Bool.and_eq_true, Bool.not_eq_eq_eq_not, Bool.not_true,
            Bool.and_eq_false_iff, decide_eq_false_iff_not, decide_eq_true_eq]
          constructor
          · by_cases hs : slot = fs
            · exact Or.inr (fun hc => h1 ⟨hs, hc⟩)
            · exact Or.inl hs
          · by_cases hs : slot = ls
            · exact Or.inr (fun hc => h2 ⟨hs, hc⟩)
            · exact Or.inl hs
        have hstep : emitEntries slot fs bi ls ui limit acc (e :: rest) =
            (if limit ≤ (acc ++ [entryToInfo slot e]).length
             then (acc ++ [entryToInfo slot e], true)
             else emitEntries slot fs bi ls ui limit (acc ++ [entryToInfo slot e]) rest) := by
          simp only [emitEntries]; rw [if_neg h1, if_neg h2]; rfl
        rw [hstep, List.filter_cons_of_pos hk, List.map_cons,
          show acc ++ entryToInfo slot e :: (rest.filter (keepEntry fs bi ls ui slot)).map
              (entryToInfo slot) =
            (acc ++ [entryToInfo slot e]) ++ (rest.filter (keepEntry fs bi ls ui slot)).map
              (entryToInfo slot) from by simp]
        have hlen1 : (acc ++ [entryToInfo slot e]).length = acc.length + 1 := by simp
        by_cases h3 : limit ≤ (acc ++ [entryToInfo slot e]).length
        · have hlen : (acc ++ [entryToInfo slot e]).length = max limit 1 := by omega
          rw [if_pos h3, if_pos (by rw [List.length_append, hlen]; omega)]
          rw [← hlen, List.take_left]
        · have hacc2 : (acc ++ [entryToInfo slot e]).length < max limit 1 := by omega
          rw [if_neg h3, emitEntries_eq fs bi ls ui limit slot rest _ hacc2]

/-- When the outer loop `addrLoop` returns `Ok`, the result is the
truncation (at the effective limit `max limit 1`) of the accumulator
followed by the filtered flattening of all scanned rows. -/
theorem addrLoop_ok_eq (preLen fs bi ls ui limit : Nat) :
    ∀ (rows : List (String × List TransactionByAddrInfo)) acc res,
      acc.length < max limit 1 →
      addrLoop preLen fs bi ls ui limit acc rows = .ok res →
      res = (acc ++ flatEmit preLen fs bi ls ui rows).take (max limit 1)
  | [], acc, res, hacc, hok => by
    simp only [addrLoop, Except.ok.injEq] at hok
    subst hok
    simp only [flatEmit, List.flatMap_nil, List.append_nil]
    rw [List.take_of_length_le (by omega)]
  | (k, data) :: rest, acc, res, hacc, hok => by
    cases hks : key_to_slot (k.drop preLen) with
    | none =>
      simp only [addrLoop, hks] at hok
      exact Except.noConfusion hok
    | some v =>
      have hrs : rowSlot preLen k = u64Compl v := by simp [rowSlot, hks]
      simp only [addrLoop, hks] at hok
      rw [emitEntries_eq fs bi ls ui limit (u64Compl v) data acc hacc] at hok
      have hflat : flatEmit preLen fs bi ls ui ((k, data) :: rest) =
          (data.filter (keepEntry fs bi ls ui (u64Compl v))).map (entryToInfo (u64Compl v)) ++
            flatEmit preLen fs bi ls ui rest := by
        simp only [flatEmit, List.flatMap_cons, hrs]
      by_cases hbreak : max limit 1 ≤
          (acc ++ (data.filter (keepEntry fs bi ls ui (u64Compl v))).map
            (entryToInfo (u64Compl v))).length
      · rw [if_pos hbreak] at hok
        simp only [Except.ok.injEq] at hok
        subst hok
        rw [hflat, ← List.append_assoc, List.take_append_of_le_length hbreak]
      · rw [if_neg hbreak] at hok
        have hlt : (acc ++ (data.filter (keepEntry fs bi ls ui (u64Compl v))).map
            (entryToInfo (u64Compl v))).length < max limit 1 := by omega
        rw [addrLoop_ok_eq preLen fs bi ls ui limit rest _ res hlt hok, hflat,
          List.append_assoc]

/-- C3 (amended): with both cursors provided and resolving through `tx` to
`(first_slot, before_index)` and `(last_slot, until_index)`, a successful
result equals the scanned rows' entries filtered by exactly
`¬(slot = first_slot ∧ index ≥ before_index) ∧ ¬(slot = last_slot ∧ index ≤
until_index)` (both filters applying simultaneously when the cursors share a
slot), truncated to the first `limit` entries — provided `limit ≥ 1`; with
`limit = 0` the loop still emits the first passing entry, because the limit
is only checked after a push. -/
theorem sigs_filter_iff_and_limit (st : Store) (addr : String) (sb su : String)
    (limit : Nat) (res : List ConfirmedTransactionStatusWithSignature)
    (tiB tiU : TransactionInfo) (starting : List TransactionByAddrInfo)
    (hB : lookupRow st.tx sb = some tiB)
    (hU : lookupRow st.tx su = some tiU)
    (hPre : lookupRow st.txByAddr ((addr ++ "/") ++ slot_to_key (u64Compl tiB.slot)) =
      some starting)
    (hlim : 1 ≤ limit)
    (hok : getConfirmedSignaturesForAddress st addr (some sb) (some su) limit = .ok res) :
    res = (flatEmit (addr ++ "/").length tiB.slot tiB.index tiU.slot tiU.index
        (getRowData st.txByAddr ((addr ++ "/") ++ slot_to_key (u64Compl tiB.slot))
          ((addr ++ "/") ++ slot_to_key (u64Compl tiU.slot))
          (limit + starting.length))).take limit := by
  simp only [getConfirmedSignaturesForAddress, resolveCursor, hB, hU, hPre] at hok
  have hres := addrLoop_ok_eq (addr ++ "/").length tiB.slot tiB.index tiU.slot tiU.index limit
    (getRowData st.txByAddr ((addr ++ "/") ++ slot_to_key (u64Compl tiB.slot))
      ((addr ++ "/") ++ slot_to_key (u64Compl tiU.slot))
      (limit + starting.length)) [] res (by simp) hok
  rw [hres, List.nil_append, Nat.max_eq_left hlim]

/-- Counterexample to C3 as stated: on `cursorStore`, with both cursors
provided and `limit = 0`, the call still emits one entry instead of
stopping after zero. -/
theorem sigs_limit_zero_still_emits :
    getConfirmedSignaturesForAddress cursorStore "X" (some "SB") (some "SU") 0 =
      .ok [{ signature := "SA", slot := 10, err := none, memo := none }] := rfl

/-- Witness for (amended) C3 on `cursorStore` with `limit = 1`. -/
theorem sigs_filter_iff_and_limit_witness :
    [{ signature := "SA", slot := 10, err := none, memo := none }] =
      (flatEmit ("X" ++ "/").length 10 1 2 0
        (getRowData cursorStore.txByAddr
          (("X" ++ "/") ++ slot_to_key (u64Compl 10))
          (("X" ++ "/") ++ slot_to_key (u64Compl 2))
          (1 + [entryA, entryB].length))).take 1 :=
  sigs_filter_iff_and_limit cursorStore "X" "SB" "SU" 1
    [{ signature := "SA", slot := 10, err := none, memo := none }]
    { slot := 10, index := 1, err := none, memo := none }
    { slot := 2, index := 0, err := none, memo := none }
    [entryA, entryB] rfl rfl rfl (by decide) rfl

/-- Reflection of the lexicographic order of 16-digit keys back to the
numeric order of the rendered values. -/
theorem natToHex_lt_reflect {m1 m2 : Nat} (h1 : m1 ≤ u64Max) (h2 : m2 ≤ u64Max)
    (h : List.Lex (· < ·) (natToHex 16 m1) (natToHex 16 m2)) : m1 < m2 := by
  rcases lt_trichotomy m1 m2 with hlt | heq | hgt
  · exact hlt
  · subst heq
    exact absurd h (asymm h)
  · have hrev : List.Lex (· < ·) (natToHex 16 m2) (natToHex 16 m1) :=
      natToHex_lex 16 m2 m1 hgt (by rw [pow16_eq]; omega)
    exact absurd h (asymm hrev)

/-- A common list head can be cancelled on both sides of a lexicographic
comparison. -/
theorem lexCancelCommon : ∀ (p x y : List Char),
    List.Lex (· < ·) (p ++ x) (p ++ y) → List.Lex (· < ·) x y
  | [], _, _, h => h
  | c :: p, x, y, h => by
    cases h with
    | rel hlt => exact absurd hlt (lt_irrefl c)
    | cons h => exact lexCancelCommon p x y h

/-- Any list lying lexicographically between two lists with a common head
`p` itself starts with `p`. -/
theorem betweenCommonPre : ∀ (p x y k : List Char),
    ¬ List.Lex (· < ·) k (p ++ x) → ¬ List.Lex (· < ·) (p ++ y) k → ∃ r, k = p ++ r
  | [], _, _, k, _, _ => ⟨k, rfl⟩
  | _ :: _, _, _, [], h1, _ => absurd List.Lex.nil h1
  | c :: p, x, y, d :: k, h1, h2 => by
    rcases lt_trichotomy c d with hlt | heq | hgt
    · exact absurd (List.Lex.rel hlt) h2
    · subst heq
      have h1a : ¬ List.Lex (· < ·) k (p ++ x) := fun hh => h1 (List.Lex.cons hh)
      have h2a : ¬ List.Lex (· < ·) (p ++ y) k := fun hh => h2 (List.Lex.cons hh)
      obtain ⟨r, hr⟩ := betweenCommonPre p x y k h1a h2a
      exact ⟨r, by rw [List.cons_append, hr]⟩
    · exact absurd (List.Lex.rel hgt) h1

/-- Two decompositions of a list at a separator character agree when neither
left part contains the separator. -/
theorem splitAtSlash : ∀ (a1 r1 a2 r2 : List Char),
    a1 ++ '/' :: r1 = a2 ++ '/' :: r2 → '/' ∉ a1 → '/' ∉ a2 → a1 = a2 ∧ r1 = r2
  | [], r1, [], r2, h, _, _ => by
    simp only [List.nil_append, List.cons.injEq] at h
    exact ⟨rfl, h.2⟩
  | [], r1, c :: a2, r2, h, _, h2 => by
    simp only [List.nil_append, List.cons_append, List.cons.injEq] at h
    exact absurd (h.1 ▸ List.mem_cons_self c a2) h2
  | c :: a1, r1, [], r2, h, h1, _ => by
    simp only [List.nil_append, List.cons_append, List.cons.injEq] at h
    exact absurd (h.1.symm ▸ List.mem_cons_self c a1) h1
  | c :: a1, r1, d :: a2, r2, h, h1, h2 => by
    simp only [List.cons_append, List.cons.injEq] at h
    obtain ⟨rfl, h⟩ := h
    have h1a : '/' ∉ a1 := fun hm => h1 (List.mem_cons_of_mem c hm)
    have h2a : '/' ∉ a2 := fun hm => h2 (List.mem_cons_of_mem c hm)
    obtain ⟨ha, hr⟩ := splitAtSlash a1 r1 a2 r2 h h1a h2a
    exact ⟨by rw [ha], hr⟩

/-- A canonically keyed `tx-by-addr` row lying in the scanned range of
`address` belongs to `address` itself: its key is `"{address}/"` followed by
a 16-digit slot key, which the loop's `drop` recovers exactly. -/
theorem rowKeySlot (addr : String) (haddr : '/' ∉ addr.data) (k : String) (x y : String)
    (hk : ∃ a m, m ≤ u64Max ∧ '/' ∉ a.data ∧ k = a ++ "/" ++ slot_to_key m)
    (hlow : ¬ k < (addr ++ "/") ++ x)
    (hhigh : ¬ (addr ++ "/") ++ y < k) :
    ∃ m, m ≤ u64Max ∧ k = (addr ++ "/") ++ slot_to_key m ∧
      k.drop ((addr ++ "/").length) = slot_to_key m := by
  obtain ⟨a, m, hm, ha, hkey⟩ := hk
  have hlowL : ¬ List.Lex (· < ·) k.data ((addr ++ "/").data ++ x.data) := by
    intro hh
    exact hlow (String.lt_iff_toList_lt.mpr (by rw [show ((addr ++ "/") ++ x).toList =
      (addr ++ "/").data ++ x.data from String.data_append _ _]; exact hh))
  have hhighL : ¬ List.Lex (· < ·) ((addr ++ "/").data ++ y.data) k.data := by
    intro hh
    exact hhigh (String.lt_iff_toList_lt.mpr (by rw [show ((addr ++ "/") ++ y).toList =
      (addr ++ "/").data ++ y.data from String.data_append _ _]; exact hh))
  obtain ⟨r, hr⟩ := betweenCommonPre (addr ++ "/").data x.data y.data k.data hlowL hhighL
  have hsplit1 : k.data = a.data ++ '/' :: (slot_to_key m).data := by
    rw [hkey]
    simp [String.data_append]
  have hsplit2 : k.data = addr.data ++ '/' :: r := by
    rw [hr]
    simp [String.data_append]
  obtain ⟨haa, _⟩ :=
    splitAtSlash a.data (slot_to_key m).data addr.data r (hsplit1.symm.trans hsplit2) ha haddr
  have haddrEq : a = addr := String.toList_inj.mp haa
  rw [haddrEq] at hkey hsplit1
  refine ⟨m, hm, hkey, ?_⟩
  have hlen : (addr ++ "/").length = (addr.data ++ ['/']).length := by
    rw [show (addr ++ "/").length = (addr ++ "/").data.length from rfl, String.data_append]
  have hdata : (k.drop ((addr ++ "/").length)).data = (slot_to_key m).data := by
    rw [String.data_drop, hlen,
      show k.data = (addr.data ++ ['/']) ++ (slot_to_key m).data from by
        rw [hsplit1]; simp]
    exact List.drop_left _ _
  exact String.toList_inj.mp hdata

/-- Any list is pairwise related by a relation that always holds. -/
theorem pairwiseOfTrue {α : Type} {R : α → α → Prop} (h : ∀ a b, R a b) :
    ∀ l : List α, l.Pairwise R
  | [] => List.Pairwise.nil
  | a :: l => List.Pairwise.cons (fun b _ => h a b) (pairwiseOfTrue h l)

/-- Every emitted record carries the slot of the row it came from. -/
theorem flatEmit_mem_slot (preLen fs bi ls ui : Nat) :
    ∀ (rows : List (String × List TransactionByAddrInfo)) x,
      x ∈ flatEmit preLen fs bi ls ui rows → ∃ r ∈ rows, x.slot = rowSlot preLen r.1
  | [], x, hx => by simp [flatEmit] at hx
  | r :: rest, x, hx => by
    simp only [flatEmit, List.flatMap_cons, List.mem_append] at hx
    rcases hx with hx | hx
    · rcases List.mem_map.mp hx with ⟨e, _, he⟩
      exact ⟨r, List.mem_cons_self r rest, by rw [← he]; rfl⟩
    · obtain ⟨r2, hr2, hslot⟩ := flatEmit_mem_slot preLen fs bi ls ui rest x hx
      exact ⟨r2, List.mem_cons_of_mem r hr2, hslot⟩

/-- The filtered flattening of rows with strictly descending slots is
ordered by non-increasing slot. -/
theorem pairwise_flatEmit (preLen fs bi ls ui : Nat) :
    ∀ (rows : List (String × List TransactionByAddrInfo)),
      rows.Pairwise (fun r1 r2 => rowSlot preLen r2.1 < rowSlot preLen r1.1) →
      (flatEmit preLen fs bi ls ui rows).Pairwise (fun x y => y.slot ≤ x.slot)
  | [], _ => by simp [flatEmit]
  | r :: rest, h => by
    obtain ⟨hr, htail⟩ := List.pairwise_cons.mp h
    simp only [flatEmit, List.flatMap_cons]
    rw [List.pairwise_append]
    refine ⟨?_, pairwise_flatEmit preLen fs bi ls ui rest htail, ?_⟩
    · rw [List.pairwise_map]
      exact pairwiseOfTrue (fun a b => le_refl _) _
    · intro x hx y hy
      obtain ⟨e, _, he⟩ := List.mem_map.mp hx
      obtain ⟨r2, hr2, hy2⟩ := flatEmit_mem_slot preLen fs bi ls ui rest y hy
      rw [hy2, ← he]
      exact le_of_lt (hr r2 hr2)

/-- C4 (amended): over a well-formed store (canonically keyed, key-sorted
`tx-by-addr` table) and an address containing no `/`, every successful
result of `get_confirmed_signatures_for_address` is ordered by
non-increasing slot — entries of one slot appearing contiguously in their
row order, which is ascending in-block index, not descending — and contains
at most `limit` entries provided `limit ≥ 1` (with `limit = 0` one entry
can still be returned). -/
theorem sigs_desc_slots_and_limit (st : Store) (addr : String)
    (beforeSig untilSig : Option String) (limit : Nat)
    (res : List ConfirmedTransactionStatusWithSignature)
    (hkeys : st.txByAddr.Pairwise (fun p q => p.1 < q.1))
    (hcanon : ∀ kv ∈ st.txByAddr, ∃ a m, m ≤ u64Max ∧ '/' ∉ a.data ∧
        kv.1 = a ++ "/" ++ slot_to_key m)
    (haddr : '/' ∉ addr.data)
    (hlim : 1 ≤ limit)
    (hok : getConfirmedSignaturesForAddress st addr beforeSig untilSig limit = .ok res) :
    res.Pairwise (fun x y => y.slot ≤ x.slot) ∧ res.length ≤ limit := by
  cases hc1 : resolveCursor st beforeSig (u64Max, 0) with
  | error e =>
    simp only [getConfirmedSignaturesForAddress, hc1] at hok
    exact Except.noConfusion hok
  | ok p1 =>
    obtain ⟨fs, bi⟩ := p1
    cases hc2 : resolveCursor st untilSig (0, u32Max) with
    | error e =>
      simp only [getConfirmedSignaturesForAddress, hc1, hc2] at hok
      exact Except.noConfusion hok
    | ok p2 =>
      obtain ⟨ls, ui⟩ := p2
      cases hpre : lookupRow st.txByAddr ((addr ++ "/") ++ slot_to_key (u64Compl fs)) with
      | none =>
        simp only [getConfirmedSignaturesForAddress, hc1, hc2, hpre] at hok
        exact Except.noConfusion hok
      | some starting =>
        simp only [getConfirmedSignaturesForAddress, hc1, hc2, hpre] at hok
        have hres := addrLoop_ok_eq (addr ++ "/").length fs bi ls ui limit
          (getRowData st.txByAddr ((addr ++ "/") ++ slot_to_key (u64Compl fs))
            ((addr ++ "/") ++ slot_to_key (u64Compl ls)) (limit + starting.length))
          [] res (by simp) hok
        rw [List.nil_append, Nat.max_eq_left hlim] at hres
        have hsub : (getRowData st.txByAddr ((addr ++ "/") ++ slot_to_key (u64Compl fs))
            ((addr ++ "/") ++ slot_to_key (u64Compl ls))
            (limit + starting.length)).Sublist st.txByAddr :=
          (List.take_sublist _ _).trans (List.filter_sublist _)
        have hrowfacts : ∀ kv ∈ getRowData st.txByAddr
            ((addr ++ "/") ++ slot_to_key (u64Compl fs))
            ((addr ++ "/") ++ slot_to_key (u64Compl ls)) (limit + starting.length),
            ∃ m, m ≤ u64Max ∧ kv.1 = (addr ++ "/") ++ slot_to_key m ∧
              kv.1.drop ((addr ++ "/").length) = slot_to_key m := by
          intro kv hkv
          have hkv2 : kv ∈ st.txByAddr.filter (fun kv =>
              !keyLt kv.1 ((addr ++ "/") ++ slot_to_key (u64Compl fs)) &&
              !keyLt ((addr ++ "/") ++ slot_to_key (u64Compl ls)) kv.1) :=
            (List.take_sublist _ _).subset hkv
          obtain ⟨hmem, hP⟩ := List.mem_filter.mp hkv2
          rw [Bool.and_eq_true, Bool.not_eq_true', Bool.not_eq_true'] at hP
          have hlow : ¬ kv.1 < (addr ++ "/") ++ slot_to_key (u64Compl fs) := fun hh => by
            have := (keyLt_iff_lt _ _).mpr hh
            rw [hP.1] at this
            exact Bool.noConfusion this
          have hhigh : ¬ (addr ++ "/") ++ slot_to_key (u64Compl ls) < kv.1 := fun hh => by
            have := (keyLt_iff_lt _ _).mpr hh
            rw [hP.2] at this
            exact Bool.noConfusion this
          exact rowKeySlot addr haddr kv.1 (slot_to_key (u64Compl fs))
            (slot_to_key (u64Compl ls)) (hcanon kv hmem) hlow hhigh
        have hkeysRows := List.Pairwise.sublist hsub hkeys
        have hslots : (getRowData st.txByAddr ((addr ++ "/") ++ slot_to_key (u64Compl fs))
            ((addr ++ "/") ++ slot_to_key (u64Compl ls))
            (limit + starting.length)).Pairwise
              (fun r1 r2 => rowSlot (addr ++ "/").length r2.1 <
                rowSlot (addr ++ "/").length r1.1) := by
          refine List.Pairwise.imp_of_mem ?_ hkeysRows
          intro kv1 kv2 h1 h2 hlt
          obtain ⟨m1, hm1, hk1, hd1⟩ := hrowfacts kv1 h1
          obtain ⟨m2, hm2, hk2, hd2⟩ := hrowfacts kv2 h2
          have hrs1 : rowSlot (addr ++ "/").length kv1.1 = u64Compl m1 := by
            rw [rowSlot, hd1, key_to_slot_slot_to_key m1 hm1]
            rfl
          have hrs2 : rowSlot (addr ++ "/").length kv2.1 = u64Compl m2 := by
            rw [rowSlot, hd2, key_to_slot_slot_to_key m2 hm2]
            rfl
          have hb : charsLt kv1.1.data kv2.1.data = true := (keyLt_iff_lt kv1.1 kv2.1).mpr hlt
          have hLex : List.Lex (· < ·) kv1.1.data kv2.1.data := (charsLt_iff _ _).mp hb
          rw [hk1, hk2, String.data_append, String.data_append] at hLex
          have hlex2 := lexCancelCommon _ _ _ hLex
          have hm12 : m1 < m2 := natToHex_lt_reflect hm1 hm2 hlex2
          rw [hrs1, hrs2]
          unfold u64Compl
          omega
        have hpw := pairwise_flatEmit (addr ++ "/").length fs bi ls ui _ hslots
        constructor
        · rw [hres]
          exact List.Pairwise.sublist (List.take_sublist _ _) hpw
        · rw [hres, List.length_take]
          omega

/-- Witness for C1: with the `tx` batch put failing on a one-transaction
block, the upload returns the store error and the `blocks` table is
untouched. -/
theorem upload_blocks_row_only_after_index_puts_witness :
    (uploadConfirmedBlock emptyStore 5 (exampleBlock "S5") noSysvarId putsTxFail).2 =
      .finished (some (.bigTableError .rowNotFound)) ∧
    (uploadConfirmedBlock emptyStore 5 (exampleBlock "S5") noSysvarId putsTxFail).1.blocks =
      emptyStore.blocks :=
  (upload_blocks_row_only_after_index_puts emptyStore 5 (exampleBlock "S5") noSysvarId
    putsTxFail [(0, { signatures := ["S5"], accountKeys := ["X"] }, none)] rfl).2
    .rowNotFound (Or.inl ⟨by decide, rfl⟩)

/-- C2 (evaluation of the code at the failing input): after uploading blocks
at slots 5 and 10 each holding a transaction from address `"X"` (both
`blocks` rows are present), the query with `before = None` fails with the
store's row-not-found error — the pre-fetch of the row
`"X/" ++ slot_to_key (!Slot::MAX)` is propagated by `?` — instead of
returning the slot-10 and slot-5 entries. -/
theorem sigs_before_none_fails_row_not_found :
    lookupRow store510.blocks (slot_to_key 5) ≠ none ∧
    lookupRow store510.blocks (slot_to_key 10) ≠ none ∧
    getConfirmedSignaturesForAddress store510 "X" none none 10 =
      .error (.bigTableError .rowNotFound) :=
  ⟨by decide, by decide, rfl⟩

/-- Counterexample to C4 as stated: a successful query whose two result
entries share slot 10 and are emitted in ascending in-block-index order
(`entryA` at index 0 before `entryB` at index 1), not descending. -/
theorem sigs_within_slot_ascending_counterexample :
    getConfirmedSignaturesForAddress historyStore "X" (some "SC") none 5 =
      .ok [{ signature := "SA", slot := 10, err := none, memo := none },
           { signature := "SB", slot := 10, err := none, memo := none }] ∧
    lookupRow historyStore.txByAddr (rowKeyX 10) = some [entryA, entryB] ∧
    entryA.index < entryB.index ∧ entryA.signature = "SA" ∧ entryB.signature = "SB" :=
  ⟨rfl, rfl, by decide, rfl, rfl⟩

/-- Witness for (amended) C4 on `historyStore`. -/
theorem sigs_desc_slots_and_limit_witness :
    ([{ signature := "SA", slot := 10, err := none, memo := none },
      { signature := "SB", slot := 10, err := none, memo := none }] :
        List ConfirmedTransactionStatusWithSignature).Pairwise (fun x y => y.slot ≤ x.slot) ∧
    ([{ signature := "SA", slot := 10, err := none, memo := none },
      { signature := "SB", slot := 10, err := none, memo := none }] :
        List ConfirmedTransactionStatusWithSignature).length ≤ 5 :=
  sigs_desc_slots_and_limit historyStore "X" (some "SC") none 5 _
    (by
      refine List.Pairwise.cons ?_ (List.Pairwise.cons (fun b hb => absurd hb (by simp)) .nil)
      intro q hq
      rw [show q = (rowKeyX 10, [entryA, entryB]) from by simpa using hq]
      exact (keyLt_iff_lt _ _).mp (by decide))
    (by
      intro kv hkv
      rcases (by simpa [historyStore] using hkv :
          kv = (rowKeyX 11, [entryC]) ∨ kv = (rowKeyX 10, [entryA, entryB])) with rfl | rfl
      · exact ⟨"X", u64Compl 11, by decide, by decide, rfl⟩
      · exact ⟨"X", u64Compl 10, by decide, by decide, rfl⟩)
    (by decide) (by decide) rfl

/-- Counterexample to C7 as stated: an unparseable `tx-by-addr` key inside
the scanned range makes `get_confirmed_signatures_for_address` return an
`ObjectCorrupt` error to the caller instead of dropping the key. -/
theorem sigs_corrupt_key_errors_counterexample :
    getConfirmedSignaturesForAddress corruptKeyStore "X" (some "SC") none 5 =
      .error (.bigTableError (.objectCorrupt
        "Failed to convert key to slot: tx-by-addr/X/fffffffffffffff5x")) := rfl

/-- C7 (amended): `key_to_slot` returns `none` on an unparseable key, and
`get_confirmed_blocks` never fails on one — it drops the corrupt key and
keeps scanning — but `get_confirmed_signatures_for_address` does turn an
unparseable scanned key into an `ObjectCorrupt` error for the caller. -/
theorem corrupt_keys_dropped_in_blocks_scan_only :
    (∀ (st : Store) (startSlot limit : Nat), ∃ slots,
        getConfirmedBlocks st startSlot limit = .ok slots) ∧
    getConfirmedBlocks corruptBlocksStore 0 10 = .ok [5, 10] ∧
    key_to_slot "not-a-key" = none ∧
    getConfirmedSignaturesForAddress corruptKeyStore "X" (some "SC") none 5 =
      .error (.bigTableError (.objectCorrupt
        "Failed to convert key to slot: tx-by-addr/X/fffffffffffffff5x")) :=
  ⟨fun _ _ _ => ⟨_, rfl⟩, rfl, rfl, rfl⟩

/-- Counterexample to C8 as stated: on the empty store both reads fail with
`BigTableError` carrying the store's row-not-found error, not with
`BlockNotFound`/`SignatureNotFound`. -/
theorem absent_row_error_is_not_not_found_variants :
    getConfirmedBlock emptyStore 5 () = .error (.bigTableError .rowNotFound) ∧
    getConfirmedBlock emptyStore 5 () ≠ .error (.blockNotFound 5) ∧
    getSignatureStatus emptyStore "S" = .error (.bigTableError .rowNotFound) ∧
    getSignatureStatus emptyStore "S" ≠ .error .signatureNotFound :=
  ⟨rfl, by decide, rfl, by decide⟩

/-- C8 (amended): when the requested row is absent, `get_confirmed_block`
and `get_signature_status` fail with `Error::BigTableError` wrapping the
store's row-not-found error; the `BlockNotFound`/`SignatureNotFound`
variants are declared but never constructed by this code. -/
theorem absent_rows_surface_store_error :
    (∀ (st : Store) (slot : Nat) (enc : Unit),
        lookupRow st.blocks (slot_to_key slot) = none →
        getConfirmedBlock st slot enc = .error (.bigTableError .rowNotFound)) ∧
    (∀ (st : Store) (sig : String), lookupRow st.tx sig = none →
        getSignatureStatus st sig = .error (.bigTableError .rowNotFound)) := by
  constructor
  · intro st slot enc h
    simp [getConfirmedBlock, h]
  · intro st sig h
    simp [getSignatureStatus, h]

/-- Witness for (amended) C8 on the empty store. -/
theorem absent_rows_surface_store_error_witness :
    getConfirmedBlock emptyStore 5 () = .error (.bigTableError .rowNotFound) ∧
    getSignatureStatus emptyStore "S" = .error (.bigTableError .rowNotFound) :=
  ⟨absent_rows_surface_store_error.1 emptyStore 5 () rfl,
   absent_rows_surface_store_error.2 emptyStore "S" rfl⟩

/-- C9: when the `tx` entry resolves to `(slot, index)` and the `blocks`
row for that slot exists, an index outside the block's transaction list, or
a transaction whose first signature differs from the requested one, makes
`get_confirmed_transaction` return `Ok(None)`, not an error.  (The source
reads `signatures[0]`, so the in-range case presumes a non-empty signature
list.) -/
theorem confirmed_transaction_corrupt_index_not_found (st : Store) (sig : String)
    (enc : Unit) (ti : TransactionInfo) (sb : StoredConfirmedBlock)
    (hti : lookupRow st.tx sig = some ti)
    (hsb : lookupRow st.blocks (slot_to_key ti.slot) = some sb)
    (hbad : ∀ bt, sb.transactions.get? ti.index = some bt →
        bt.transaction.signatures ≠ [] ∧ firstSignature bt.transaction ≠ sig) :
    getConfirmedTransaction st sig enc = .ok none := by
  simp only [getConfirmedTransaction, hti, hsb]
  cases hg : sb.transactions.get? ti.index with
  | none => rfl
  | some bt =>
    simp only []
    rw [if_pos (hbad bt hg).2]

/-- Witness for C9: `outOfRangeStore` has a `tx` row pointing at index 5 of
a one-transaction block. -/
theorem confirmed_transaction_corrupt_index_not_found_witness :
    getConfirmedTransaction outOfRangeStore "S9" () = .ok none :=
  confirmed_transaction_corrupt_index_not_found outOfRangeStore "S9" ()
    { slot := 3, index := 5, err := none, memo := none } oneTxStoredBlock rfl rfl
    (fun _ h => Option.noConfusion h)
